import Mathlib

/-
Verification of the processor-synchronization core of hinlines.h
(synchronize_cpus, wakeup_cpu_mask, wakeup_cpus_mask,
Obtain_Interrupt_Lock, Release_Interrupt_Lock) against its
natural-language specification.

The C state is embedded shallowly:
  * CPU_BITMAP values are Nat used as bitmasks (CPU_BIT(i) = 1 <<< i);
  * one REGS record per processor becomes the structure Regs;
  * the fields of sysblk used by this core become the structure SysBlk;
  * the external macros AT_SYNCPOINT / SIE_MODE / ON_IC_INTERRUPT are
    modelled as per-processor boolean fields (AT_SYNCPOINT is an
    external query; ON_IC_INTERRUPT sets a pending-interrupt flag);
  * the pthread primitives (obtain_lock, wait_condition,
    signal_condition, broadcast_condition) are external: blocking
    code is modelled either as an event trace whose environment
    interaction at each wait_condition is an explicit input
    (Obtain_Interrupt_Lock), or as a step relation on the observable
    shared state (CoreStep).
-/

set_option maxHeartbeats 1000000

namespace Hinlines

/-- Lock owner sentinel: sysblk.intowner is LOCK_OWNER_NONE,
LOCK_OWNER_OTHER, or a processor address (cpuad). -/
inductive Owner where
  | noOwner : Owner
  | otherOwner : Owner
  | cpu (id : Nat) : Owner
deriving DecidableEq, Repr

/-- The fields of a per-processor REGS record that this core reads or
writes.  waittod / waittime are the wait timestamp and accumulated
wait time; intwait is the lock-wait flag; sie_mode says whether a
nested guest processor is present; ic_interrupt / guest_ic_interrupt
model the pending-interrupt condition set by ON_IC_INTERRUPT on the
processor and on its guest; at_syncpoint models the external
AT_SYNCPOINT query as a boolean observation. -/
structure Regs where
  waittod : Nat
  waittime : Nat
  intwait : Bool
  sie_mode : Bool
  ic_interrupt : Bool
  guest_ic_interrupt : Bool
  at_syncpoint : Bool
deriving DecidableEq, Repr

/-- Default REGS record (used only for out-of-range list indexing,
which the C code never performs on the masks it is given). -/
def dfltRegs : Regs :=
  { waittod := 0, waittime := 0, intwait := false, sie_mode := false,
    ic_interrupt := false, guest_ic_interrupt := false, at_syncpoint := false }

instance : Inhabited Regs := ⟨dfltRegs⟩

/-- The fields of sysblk used by the synchronization core. regs is the
processor table sysblk.regs; its length plays the role of
sysblk.hicpu. -/
structure SysBlk where
  started_mask : Nat
  waiting_mask : Nat
  sync_mask : Nat
  syncing : Bool
  intowner : Owner
  regs : List Regs
deriving DecidableEq

/-- Effect of the ON_IC_INTERRUPT(i_regs) call in synchronize_cpus,
together with the conditional ON_IC_INTERRUPT(i_regs->guestregs)
performed when SIE_MODE(i_regs) holds. -/
def markInterrupt (r : Regs) : Regs :=
  { r with
    ic_interrupt := true,
    guest_ic_interrupt := if r.sie_mode then true else r.guest_ic_interrupt }

/-- The candidate mask computed at the top of synchronize_cpus:
mask = sysblk.started_mask; mask &= ~(sysblk.waiting_mask | cpubit). -/
def syncCandidates (s : SysBlk) (cpu : Nat) : Nat :=
  Nat.ldiff s.started_mask (s.waiting_mask ||| (1 <<< cpu))

/-- The scanning loop of synchronize_cpus:
for (i=0; mask && i < hicpu; ++i) { if (mask & CPU_BIT(i)) { if
(AT_SYNCPOINT(i_regs)) mask ^= CPU_BIT(i); else { ++n;
ON_IC_INTERRUPT(i_regs); if SIE_MODE ... } } }.
Returns (n, mask, regs) at loop exit. -/
def sync_scan (regsL : List Regs) (hicpu i mask n : Nat) : Nat × Nat × List Regs :=
  if mask ≠ 0 ∧ i < hicpu then
    if Nat.testBit mask i then
      if (regsL.getD i dfltRegs).at_syncpoint then
        sync_scan regsL hicpu (i + 1) (mask ^^^ (1 <<< i)) n
      else
        sync_scan (regsL.set i (markInterrupt (regsL.getD i dfltRegs))) hicpu
          (i + 1) mask (n + 1)
    else
      sync_scan regsL hicpu (i + 1) mask n
  else (n, mask, regsL)
termination_by hicpu - i

/-- synchronize_cpus up to its first observable suspension point.  The
Bool result records whether the caller blocks on sync_cond: when the
scan leaves n and mask both nonzero, the code stores sync_mask = mask,
syncing = 1, intowner = LOCK_OWNER_NONE and calls wait_condition
(the state returned here is the one observable at that wait); the
resumption after the wait (intowner = cpuad, syncing = 0, broadcast) is
modelled by the CoreStep.barrierFinish transition below.  Otherwise
synchronize_cpus returns immediately with no change beyond the
pending-interrupt flags set during the scan. -/
def synchronize_cpus (s : SysBlk) (cpu : Nat) : SysBlk × Bool :=
  match sync_scan s.regs s.regs.length 0 (syncCandidates s cpu) 0 with
  | (n, mask, regsOut) =>
    if n ≠ 0 ∧ mask ≠ 0 then
      ({ s with regs := regsOut, sync_mask := mask, syncing := true,
                intowner := Owner.noOwner }, true)
    else
      ({ s with regs := regsOut }, false)

/-- wakeup_cpu signals the target processor's private condition
variable; in this embedding a wakeup is recorded by the index of the
processor signalled. -/
def wakeup_cpu (i : Nat) : Nat := i

/-- The loop of wakeup_cpus_mask:
for (i=0; mask; mask >>= 1, i++) if (mask & 1) wakeup_cpu(sysblk.regs[i]);
returns the list of processor indices signalled, in loop order. -/
def wakeup_cpus_mask (mask i : Nat) : List Nat :=
  if mask = 0 then []
  else (if mask % 2 = 1 then [wakeup_cpu i] else []) ++
       wakeup_cpus_mask (mask / 2) (i + 1)
termination_by mask
decreasing_by exact Nat.div_lt_self (Nat.pos_of_ne_zero (by assumption)) (by decide)

/-- Number of set bits of a Nat (the number of processors selected by a
bitmask). -/
def popcount (n : Nat) : Nat :=
  if n = 0 then 0 else n % 2 + popcount (n / 2)
termination_by n
decreasing_by exact Nat.div_lt_self (Nat.pos_of_ne_zero (by assumption)) (by decide)

/-- The body of the selection conditional in wakeup_cpu_mask, deciding
whether processor i replaces the current selection lru:
lru_regs == NULL || (current_waittod > 0 && (current_waittod <
lru_waittod || (current_waittod == lru_waittod &&
current_regs->waittime >= lru_regs->waittime))).
The processor table is read-only during the loop, so the cached
lru_waittod equals (rf l).waittod. -/
def lru_select (rf : Nat → Regs) (lru : Option Nat) (i : Nat) : Option Nat :=
  match lru with
  | Option.none => some i
  | some l =>
      if 0 < (rf i).waittod ∧
         ((rf i).waittod < (rf l).waittod ∨
          ((rf i).waittod = (rf l).waittod ∧ (rf l).waittime ≤ (rf i).waittime))
      then some i else some l

/-- The scanning loop of wakeup_cpu_mask:
for (i=0; mask; mask >>= 1, ++i) if (mask & 1) { ...selection... }. -/
def wakeLoop (rf : Nat → Regs) (mask i : Nat) (lru : Option Nat) : Option Nat :=
  if mask = 0 then lru
  else wakeLoop rf (mask / 2) (i + 1)
         (if mask % 2 = 1 then lru_select rf lru i else lru)
termination_by mask
decreasing_by exact Nat.div_lt_self (Nat.pos_of_ne_zero (by assumption)) (by decide)

/-- wakeup_cpu_mask: if the mask is nonempty, scan it and wake the
selected processor (the C issues wakeup_cpu(lru_regs) after the loop);
the result records which single processor is signalled, none when the
mask is empty and nothing at all happens. -/
def wakeup_cpu_mask (rf : Nat → Regs) (mask : Nat) : Option Nat :=
  if mask = 0 then Option.none
  else wakeLoop rf mask 0 Option.none

/-- Release_Interrupt_Lock: UNREFERENCED(regs); sysblk.intowner =
LOCK_OWNER_NONE; release_lock(&sysblk.intlock).  The function ignores
its requester argument and performs no check that the caller holds the
lock; the release_lock call is to the external mutex primitive. -/
def Release_Interrupt_Lock (s : SysBlk) (requester : Option Nat) : SysBlk :=
  { s with intowner := Owner.noOwner }

/-- Definition following the spec's words, for comparison with the
code: a release that treats "caller does not hold the lock" as a
flagged contract violation (an error outcome) instead of proceeding. -/
def release_with_check (s : SysBlk) (requester : Option Nat) : Except Unit SysBlk :=
  let caller := match requester with
    | some c => Owner.cpu c
    | Option.none => Owner.otherOwner
  if s.intowner = caller then
    Except.ok { s with intowner := Owner.noOwner }
  else
    Except.error ()

/-- Events observable in the execution of Obtain_Interrupt_Lock by a
processor thread: setting regs->hostregs->intwait = 1, the blocking
obtain_lock call, one sync_mask update (with its before and after
values), the signal_condition(&sysblk.sync_cond) call, the
wait_condition(&sysblk.sync_bc_cond, ...) call, clearing intwait, and
the final assignment of sysblk.intowner. -/
inductive Ev where
  | setWaitFlag : Ev
  | acquireLock : Ev
  | removeBit (before after : Nat) : Ev
  | signalSatisfied : Ev
  | waitResolved : Ev
  | clearWaitFlag : Ev
  | setOwnerCpu (id : Nat) : Ev
  | setOwnerOther : Ev
deriving DecidableEq, Repr

/-- The while (sysblk.syncing) loop of Obtain_Interrupt_Lock, run with
the interrupt lock held.  Each wait_condition releases the lock; the
pair consumed from env is the (syncing, sync_mask) state the thread
observes when the wait returns and it holds the lock again.  The
result is none when env is exhausted with syncing still true (the
thread is still blocked), otherwise the trace of events. -/
def obtain_wait_loop (cpu : Nat) : Bool → Nat → List (Bool × Nat) → Option (List Ev)
  | false, _, _ => some []
  | true, _, [] => Option.none
  | true, mask, (sy', m') :: env =>
      let m := Nat.ldiff mask (1 <<< cpu)
      (obtain_wait_loop cpu sy' m' env).map (fun tr =>
        Ev.removeBit mask m ::
          ((if m = 0 then [Ev.signalSatisfied] else []) ++ (Ev.waitResolved :: tr)))

/-- Obtain_Interrupt_Lock as an event trace.  requester = some c for a
processor thread (regs nonnull, c = cpuad, cpubit = 1 <<< c), none for
a non-processor thread.  sy and mask are sysblk.syncing and
sysblk.sync_mask as observed when obtain_lock returns; env feeds the
states observed after each wait_condition. -/
def Obtain_Interrupt_Lock (requester : Option Nat) (sy : Bool) (mask : Nat)
    (env : List (Bool × Nat)) : Option (List Ev) :=
  match requester with
  | some c =>
      (obtain_wait_loop c sy mask env).map (fun tr =>
        Ev.setWaitFlag :: Ev.acquireLock ::
          (tr ++ [Ev.clearWaitFlag, Ev.setOwnerCpu c]))
  | Option.none => some [Ev.acquireLock, Ev.setOwnerOther]

/-- The shared-state fields governed by the barrier invariant, as
observable between critical sections: sysblk.syncing,
sysblk.sync_mask, sysblk.intowner. -/
structure BSt where
  syncing : Bool
  sync_mask : Nat
  intowner : Owner
deriving DecidableEq, Repr

/-- Observable transitions of the synchronization core on BSt.  Each
constructor is one passage of an operation between two points where
the shared state is observable (lock released or a wait entered):
  * barrierStart: synchronize_cpus stores sync_mask = mask (nonzero),
    syncing = 1, intowner = NONE and enters wait_condition;
  * barrierFinish: the wait on sync_cond returns — sync_cond is
    signalled only when sync_mask has been emptied — and the code sets
    intowner = cpuad, syncing = 0 and broadcasts sync_bc_cond;
  * acquireDrain: one iteration of the Obtain_Interrupt_Lock loop,
    clearing the acquirer's bit and entering wait_condition;
  * acquireCpu: a processor acquirer observes syncing false, clears
    intwait and takes ownership;
  * acquireOther: a non-processor acquirer takes ownership;
  * releaseLock: Release_Interrupt_Lock;
  * wakeup: the wakeup operations, which touch none of these fields;
  * barrierNoWait: synchronize_cpus returning immediately. -/
inductive CoreStep : BSt → BSt → Prop where
  | barrierStart (s : BSt) (mask : Nat) (h : mask ≠ 0) :
      CoreStep s ⟨true, mask, Owner.noOwner⟩
  | barrierFinish (s : BSt) (c : Nat) (hs : s.syncing = true) (hm : s.sync_mask = 0) :
      CoreStep s ⟨false, s.sync_mask, Owner.cpu c⟩
  | acquireDrain (s : BSt) (c : Nat) (hs : s.syncing = true) :
      CoreStep s ⟨true, Nat.ldiff s.sync_mask (1 <<< c), s.intowner⟩
  | acquireCpu (s : BSt) (c : Nat) (hs : s.syncing = false) :
      CoreStep s ⟨s.syncing, s.sync_mask, Owner.cpu c⟩
  | acquireOther (s : BSt) :
      CoreStep s ⟨s.syncing, s.sync_mask, Owner.otherOwner⟩
  | releaseLock (s : BSt) :
      CoreStep s ⟨s.syncing, s.sync_mask, Owner.noOwner⟩
  | wakeup (s : BSt) : CoreStep s s
  | barrierNoWait (s : BSt) : CoreStep s s

/-- The barrier-mask invariant of the spec: barrierPendingMask
(sync_mask) is non-empty only while barrierActive (syncing) is true,
and always empty when barrierActive is false. -/
def maskInv (s : BSt) : Prop :=
  (s.sync_mask ≠ 0 → s.syncing = true) ∧ (s.syncing = false → s.sync_mask = 0)

instance (s : BSt) : Decidable (maskInv s) := by
  unfold maskInv; infer_instance

/-! Unfolding equations for the well-founded recursive definitions. -/

theorem wakeup_cpus_mask_eq (mask i : Nat) :
    wakeup_cpus_mask mask i =
      if mask = 0 then []
      else (if mask % 2 = 1 then [wakeup_cpu i] else []) ++
           wakeup_cpus_mask (mask / 2) (i + 1) := by
  rw [wakeup_cpus_mask]

theorem popcount_eq (n : Nat) :
    popcount n = if n = 0 then 0 else n % 2 + popcount (n / 2) := by
  rw [popcount]

theorem wakeLoop_eq (rf : Nat → Regs) (mask i : Nat) (lru : Option Nat) :
    wakeLoop rf mask i lru =
      if mask = 0 then lru
      else wakeLoop rf (mask / 2) (i + 1)
             (if mask % 2 = 1 then lru_select rf lru i else lru) := by
  rw [wakeLoop]

/-! Structure of the list of processors signalled by wakeup_cpus_mask. -/

theorem mem_wakeup_cpus_mask {mask i j : Nat} :
    j ∈ wakeup_cpus_mask mask i ↔ ∃ k, j = i + k ∧ Nat.testBit mask k := by
  induction mask using Nat.strong_induction_on generalizing i with
  | _ mask ih =>
    rw [wakeup_cpus_mask_eq]
    by_cases h0 : mask = 0
    · subst h0; simp
    · rw [if_neg h0]
      have hlt : mask / 2 < mask := Nat.div_lt_self (Nat.pos_of_ne_zero h0) (by decide)
      rw [List.mem_append, ih _ hlt]
      constructor
      · rintro (hj | ⟨k, rfl, hk⟩)
        · by_cases h2 : mask % 2 = 1
          · rw [if_pos h2] at hj
            simp only [wakeup_cpu, List.mem_singleton] at hj
            subst hj
            exact ⟨0, by omega, by simpa [Nat.testBit_zero] using h2⟩
          · rw [if_neg h2] at hj; simp at hj
        · exact ⟨k + 1, by omega, by rwa [Nat.testBit_add_one]⟩
      · rintro ⟨k, rfl, hk⟩
        cases k with
        | zero =>
          left
          have h2 : mask % 2 = 1 := by simpa [Nat.testBit_zero] using hk
          simp [h2, wakeup_cpu]
        | succ k =>
          right
          exact ⟨k, by omega, by rwa [Nat.testBit_add_one] at hk⟩

theorem wakeup_cpus_mask_lower {mask i j : Nat}
    (h : j ∈ wakeup_cpus_mask mask i) : i ≤ j := by
  rcases mem_wakeup_cpus_mask.mp h with ⟨k, rfl, _⟩
  omega

theorem wakeup_cpus_mask_pairwise (mask i : Nat) :
    List.Pairwise (· < ·) (wakeup_cpus_mask mask i) := by
  induction mask using Nat.strong_induction_on generalizing i with
  | _ mask ih =>
    rw [wakeup_cpus_mask_eq]
    by_cases h0 : mask = 0
    · simp [h0]
    · rw [if_neg h0]
      have hlt : mask / 2 < mask := Nat.div_lt_self (Nat.pos_of_ne_zero h0) (by decide)
      have hrec := ih _ hlt (i + 1)
      by_cases h2 : mask % 2 = 1
      · rw [if_pos h2]
        simp only [wakeup_cpu, List.singleton_append, List.pairwise_cons]
        exact ⟨fun j hj => Nat.lt_of_lt_of_le (Nat.lt_succ_self i)
          (wakeup_cpus_mask_lower hj), hrec⟩
      · rw [if_neg h2]; simpa using hrec

theorem wakeup_cpus_mask_length (mask i : Nat) :
    (wakeup_cpus_mask mask i).length = popcount mask := by
  induction mask using Nat.strong_induction_on generalizing i with
  | _ mask ih =>
    rw [wakeup_cpus_mask_eq, popcount_eq]
    by_cases h0 : mask = 0
    · simp [h0]
    · rw [if_neg h0, if_neg h0]
      have hlt : mask / 2 < mask := Nat.div_lt_self (Nat.pos_of_ne_zero h0) (by decide)
      rw [List.length_append, ih _ hlt]
      rcases Nat.mod_two_eq_zero_or_one mask with h2 | h2 <;> simp [h2]

/-- C8: wakeAll(mask) issues exactly k individual wake signals for a
mask with k bits set — one call of wakeOne per set bit, for every set
bit.  The signal list of wakeup_cpus_mask has no duplicates, contains
exactly the set bits of the mask, and has length popcount mask; the
function reads no wait timestamps (it does not depend on the processor
records at all). -/
theorem wakeup_cpus_mask_complete (mask : Nat) :
    (wakeup_cpus_mask mask 0).Nodup ∧
    (∀ j, j ∈ wakeup_cpus_mask mask 0 ↔ Nat.testBit mask j) ∧
    (wakeup_cpus_mask mask 0).length = popcount mask := by
  refine ⟨?_, ?_, wakeup_cpus_mask_length mask 0⟩
  · exact (wakeup_cpus_mask_pairwise mask 0).imp Nat.ne_of_lt
  · intro j
    rw [mem_wakeup_cpus_mask]
    constructor
    · rintro ⟨k, rfl, hk⟩; simpa using hk
    · intro hj; exact ⟨j, by omega, hj⟩

/-- C9: wakeLRU on an empty mask is a no-op: no processor is woken
(result none), no state is touched, and there is no error outcome. -/
theorem wakeup_cpu_mask_empty (rf : Nat → Regs) :
    wakeup_cpu_mask rf 0 = Option.none := rfl

/-! Analysis of the LRU selection of wakeup_cpu_mask. -/

/-- The preference order the selection loop realizes: d is preferred
to k when d has the smaller waittod, or equal waittod and larger
waittime, or both equal and the larger index (the later one examined
wins an exact tie because the comparison uses >=). -/
def lruPref (rf : Nat → Regs) (d k : Nat) : Prop :=
  (rf d).waittod < (rf k).waittod ∨
  ((rf d).waittod = (rf k).waittod ∧
    ((rf k).waittime < (rf d).waittime ∨
     ((rf d).waittime = (rf k).waittime ∧ k ≤ d)))

theorem lruPref_refl (rf : Nat → Regs) (a : Nat) : lruPref rf a a := by
  unfold lruPref; omega

theorem lruPref_trans {rf : Nat → Regs} {a b c : Nat}
    (h1 : lruPref rf a b) (h2 : lruPref rf b c) : lruPref rf a c := by
  unfold lruPref at *; omega

theorem wakeLoop_eq_foldl (rf : Nat → Regs) (mask i : Nat) (lru : Option Nat) :
    wakeLoop rf mask i lru =
      List.foldl (lru_select rf) lru (wakeup_cpus_mask mask i) := by
  induction mask using Nat.strong_induction_on generalizing i lru with
  | _ mask ih =>
    rw [wakeLoop_eq, wakeup_cpus_mask_eq]
    by_cases h0 : mask = 0
    · simp [h0]
    · rw [if_neg h0, if_neg h0]
      have hlt : mask / 2 < mask := Nat.div_lt_self (Nat.pos_of_ne_zero h0) (by decide)
      rw [ih _ hlt]
      by_cases h2 : mask % 2 = 1 <;> simp [h2, wakeup_cpu]

/-- A selection seeded by a record with waittod = 0 is never displaced:
the replacement test requires current_waittod > 0 together with
current_waittod < 0 or current_waittod = 0, which is impossible. -/
theorem foldl_select_zero (rf : Nat → Regs) (L : List Nat) (c : Nat)
    (hc : (rf c).waittod = 0) :
    List.foldl (lru_select rf) (some c) L = some c := by
  induction L with
  | nil => rfl
  | cons a L ih =>
    have hstep : lru_select rf (some c) a = some c := by
      simp only [lru_select]
      have hno : ¬(0 < (rf a).waittod ∧
          ((rf a).waittod < (rf c).waittod ∨
           ((rf a).waittod = (rf c).waittod ∧
            (rf c).waittime ≤ (rf a).waittime))) := by omega
      rw [if_neg hno]
    rw [List.foldl_cons, hstep, ih]

/-- Characterization of the selection fold: started from a valid seed
c and run over an increasing list of later candidates, it returns a
valid candidate preferred (in the implemented order) to every valid
candidate, the seed included. -/
theorem foldl_select_char (rf : Nat → Regs) (L : List Nat) : ∀ (c : Nat),
    (∀ k ∈ L, c < k) → List.Pairwise (· < ·) L → 0 < (rf c).waittod →
    ∃ d, List.foldl (lru_select rf) (some c) L = some d ∧
      (d = c ∨ d ∈ L) ∧ 0 < (rf d).waittod ∧ lruPref rf d c ∧
      (∀ k ∈ L, 0 < (rf k).waittod → lruPref rf d k) := by
  induction L with
  | nil =>
    intro c _ _ hc
    exact ⟨c, rfl, Or.inl rfl, hc, lruPref_refl rf c, by simp⟩
  | cons a L ih =>
    intro c hsort hpair hc
    rw [List.foldl_cons]
    have ha : c < a := hsort a (List.mem_cons_self a L)
    obtain ⟨haL, hpL⟩ := List.pairwise_cons.mp hpair
    by_cases hrepl : 0 < (rf a).waittod ∧
        ((rf a).waittod < (rf c).waittod ∨
         ((rf a).waittod = (rf c).waittod ∧ (rf c).waittime ≤ (rf a).waittime))
    · have hstep : lru_select rf (some c) a = some a := by
        simp only [lru_select]; rw [if_pos hrepl]
      rw [hstep]
      obtain ⟨d, hfold, hmem, hd, hdc, hdL⟩ := ih a haL hpL hrepl.1
      have hac : lruPref rf a c := by unfold lruPref; omega
      refine ⟨d, hfold, ?_, hd, lruPref_trans hdc hac, ?_⟩
      · rcases hmem with rfl | h
        · exact Or.inr (List.mem_cons_self _ _)
        · exact Or.inr (List.mem_cons_of_mem _ h)
      · intro k hk hvk
        rcases List.mem_cons.mp hk with rfl | hk'
        · exact hdc
        · exact hdL k hk' hvk
    · have hstep : lru_select rf (some c) a = some c := by
        simp only [lru_select]; rw [if_neg hrepl]
      rw [hstep]
      have hsort' : ∀ k ∈ L, c < k :=
        fun k hk => hsort k (List.mem_cons_of_mem _ hk)
      obtain ⟨d, hfold, hmem, hd, hdc, hdL⟩ := ih c hsort' hpL hc
      refine ⟨d, hfold, ?_, hd, hdc, ?_⟩
      · rcases hmem with rfl | h
        · exact Or.inl rfl
        · exact Or.inr (List.mem_cons_of_mem _ h)
      · intro k hk hvk
        rcases List.mem_cons.mp hk with rfl | hk'
        · have hca : lruPref rf c k := by unfold lruPref; omega
          exact lruPref_trans hdc hca
        · exact hdL k hk' hvk

/-- When the first record examined is a valid candidate, the woken
processor is a valid candidate of the mask preferred to every valid
candidate in the implemented LRU order. -/
theorem wakeup_cpu_mask_char (rf : Nat → Regs) (mask c : Nat) (L : List Nat)
    (hL : wakeup_cpus_mask mask 0 = c :: L) (hc : 0 < (rf c).waittod) :
    ∃ d, wakeup_cpu_mask rf mask = some d ∧ Nat.testBit mask d ∧
      0 < (rf d).waittod ∧
      ∀ k, Nat.testBit mask k → 0 < (rf k).waittod → lruPref rf d k := by
  have hmask : mask ≠ 0 := by
    intro h; subst h; rw [wakeup_cpus_mask_eq] at hL; simp at hL
  unfold wakeup_cpu_mask
  rw [if_neg hmask, wakeLoop_eq_foldl, hL, List.foldl_cons]
  have hseed : lru_select rf Option.none c = some c := rfl
  rw [hseed]
  have hpw : List.Pairwise (· < ·) (c :: L) := hL ▸ wakeup_cpus_mask_pairwise mask 0
  obtain ⟨hcL, hpL⟩ := List.pairwise_cons.mp hpw
  obtain ⟨d, hfold, hmem, hd, hdc, hdL⟩ := foldl_select_char rf L c hcL hpL hc
  refine ⟨d, hfold, ?_, hd, ?_⟩
  · have hdmem : d ∈ wakeup_cpus_mask mask 0 := by
      rw [hL]
      rcases hmem with rfl | h
      · exact List.mem_cons_self _ _
      · exact List.mem_cons_of_mem _ h
    rcases mem_wakeup_cpus_mask.mp hdmem with ⟨k, hk, hbit⟩
    have : d = k := by omega
    rwa [this]
  · intro k hk hvk
    have hkmem : k ∈ wakeup_cpus_mask mask 0 :=
      mem_wakeup_cpus_mask.mpr ⟨k, by omega, hk⟩
    rw [hL] at hkmem
    rcases List.mem_cons.mp hkmem with rfl | hk'
    · exact hdc
    · exact hdL k hk' hvk


/-- Processor table for the first LRU example of the spec: waitStart
values 5, 2, 9 on processors 0, 1, 2. -/
def exRegsA : Nat → Regs := fun i =>
  if i = 0 then { dfltRegs with waittod := 5 }
  else if i = 1 then { dfltRegs with waittod := 2 }
  else { dfltRegs with waittod := 9 }

/-- Processor table for the second LRU example of the spec: both
processors tied at waitStart 3, accumulatedWaitTime 100 and 50. -/
def exRegsB : Nat → Regs := fun i =>
  if i = 0 then { dfltRegs with waittod := 3, waittime := 100 }
  else { dfltRegs with waittod := 3, waittime := 50 }

/-- Processor table exercising the zero seed against a mask that also
contains valid candidates: waitStart 0, 7, 3 on processors 0, 1, 2. -/
def zeroSeedRegsA : Nat → Regs := fun i =>
  if i = 0 then dfltRegs
  else if i = 1 then { dfltRegs with waittod := 7 }
  else { dfltRegs with waittod := 3 }

/-- Processor table with a zero-waitStart processor 0 and a valid
processor 1 (waitStart 5). -/
def zeroSeedRegsB : Nat → Regs := fun i =>
  if i = 0 then dfltRegs
  else { dfltRegs with waittod := 5 }

/-- Processor table with a zero-waitStart processor 0 and processors
1 and 2 fully tied at waitStart 3, accumulatedWaitTime 7. -/
def zeroSeedRegsC : Nat → Regs := fun i =>
  if i = 0 then dfltRegs
  else { dfltRegs with waittod := 3, waittime := 7 }

/-- Processor table with two tied leaders among other valid
candidates: processor 0 has waitStart 9; processors 1 and 2 are tied
at waitStart 3 with accumulatedWaitTime 7; processor 3 shares their
waitStart 3 but has the smaller accumulatedWaitTime 2. -/
def exRegsD : Nat → Regs := fun i =>
  if i = 0 then { dfltRegs with waittod := 9 }
  else if i = 3 then { dfltRegs with waittod := 3, waittime := 2 }
  else { dfltRegs with waittod := 3, waittime := 7 }

theorem testBit_lt_of_lt {n k b : Nat} (h : Nat.testBit n k = true)
    (hn : n < 2 ^ b) : k < b := by
  by_contra hk
  push_neg at hk
  rw [Nat.testBit_eq_false_of_lt
    (Nat.lt_of_lt_of_le hn (Nat.pow_le_pow_right (by norm_num) hk))] at h
  exact absurd h (by simp)

/-- C4 counterexample: with candidate mask 7 and waitStart values
0, 7, 3 on processors 0, 1, 2, the candidate with the smallest nonzero
waitStart is processor 2, but wakeup_cpu_mask wakes processor 0, whose
waitStart is 0: the first record examined seeds the selection and a
zero seed is never displaced, so the claim as stated fails. -/
theorem wakeLRU_zero_seed_counterexample :
    wakeup_cpu_mask zeroSeedRegsA 7 = some 0 ∧
    (zeroSeedRegsA 0).waittod = 0 ∧
    Nat.testBit 7 2 = true ∧ 0 < (zeroSeedRegsA 2).waittod ∧
    (∀ k, Nat.testBit 7 k = true → 0 < (zeroSeedRegsA k).waittod →
      (zeroSeedRegsA 2).waittod ≤ (zeroSeedRegsA k).waittod) := by
  refine ⟨?_, by simp [zeroSeedRegsA, dfltRegs], by decide,
    by simp [zeroSeedRegsA, dfltRegs], ?_⟩
  · simp [wakeup_cpu_mask, wakeLoop_eq, lru_select, zeroSeedRegsA, dfltRegs]
  · intro k hk hv
    have hk3 : k < 3 := testBit_lt_of_lt hk (by norm_num)
    interval_cases k <;> simp_all [zeroSeedRegsA, dfltRegs]

/-- C4 (amended): provided the first-examined candidate (the lowest
set bit of the mask) has a nonzero waitStart, wakeup_cpu_mask on a
non-empty mask wakes exactly one processor: a candidate with nonzero
waitStart whose waitStart is minimal among all valid candidates, and
whose accumulatedWaitTime is maximal among the valid candidates tied
at that waitStart.  In particular, for candidates with waitStart
values 5, 2 and 9 it wakes the one with waitStart 2, and for two
candidates tied at the same waitStart with accumulatedWaitTime 100 and
50 it wakes the one with 100. -/
theorem wakeLRU_selects_min_nonzero :
    (∀ (rf : Nat → Regs) (mask c : Nat) (L : List Nat),
      wakeup_cpus_mask mask 0 = c :: L → 0 < (rf c).waittod →
      ∃ d, wakeup_cpu_mask rf mask = some d ∧ Nat.testBit mask d = true ∧
        0 < (rf d).waittod ∧
        ∀ k, Nat.testBit mask k = true → 0 < (rf k).waittod →
          (rf d).waittod ≤ (rf k).waittod ∧
          ((rf d).waittod = (rf k).waittod → (rf k).waittime ≤ (rf d).waittime)) ∧
    wakeup_cpu_mask exRegsA 7 = some 1 ∧ (exRegsA 1).waittod = 2 ∧
    wakeup_cpu_mask exRegsB 3 = some 0 ∧ (exRegsB 0).waittime = 100 := by
  refine ⟨?_, ?_, by simp [exRegsA, dfltRegs], ?_, by simp [exRegsB, dfltRegs]⟩
  · intro rf mask c L hL hc
    obtain ⟨d, h1, h2, h3, h4⟩ := wakeup_cpu_mask_char rf mask c L hL hc
    refine ⟨d, h1, h2, h3, fun k hk hv => ?_⟩
    have := h4 k hk hv
    unfold lruPref at this
    omega
  · simp [wakeup_cpu_mask, wakeLoop_eq, lru_select, exRegsA, dfltRegs]
  · simp [wakeup_cpu_mask, wakeLoop_eq, lru_select, exRegsB, dfltRegs]

theorem wakeLRU_selects_min_nonzero_witness :
    ∃ d, wakeup_cpu_mask exRegsA 7 = some d ∧ Nat.testBit 7 d = true ∧
      0 < (exRegsA d).waittod ∧
      ∀ k, Nat.testBit 7 k = true → 0 < (exRegsA k).waittod →
        (exRegsA d).waittod ≤ (exRegsA k).waittod ∧
        ((exRegsA d).waittod = (exRegsA k).waittod →
          (exRegsA k).waittime ≤ (exRegsA d).waittime) :=
  wakeLRU_selects_min_nonzero.1 exRegsA 7 0 [1, 2]
    (by simp [wakeup_cpus_mask_eq, wakeup_cpu])
    (by simp [exRegsA, dfltRegs])

/-- C5 counterexample: mask 3 contains processor 1 with nonzero
waitStart 5, yet the processor finally woken is processor 0, whose
waitStart is 0: once the zero-waitStart first record seeds the
selection, the later valid candidate does not displace it, so the
claim's consequence fails. -/
theorem wakeLRU_zero_not_displaced_counterexample :
    wakeup_cpu_mask zeroSeedRegsB 3 = some 0 ∧
    (zeroSeedRegsB 0).waittod = 0 ∧
    Nat.testBit 3 1 = true ∧ 0 < (zeroSeedRegsB 1).waittod := by
  refine ⟨?_, by simp [zeroSeedRegsB, dfltRegs], by decide,
    by simp [zeroSeedRegsB, dfltRegs]⟩
  simp [wakeup_cpu_mask, wakeLoop_eq, lru_select, zeroSeedRegsB, dfltRegs]

/-- C5 (amended): a candidate whose waitStart is 0 is not a valid
candidate for the LRU comparison: it only seeds the selection when it
is the first record examined and no candidate has been chosen yet, and
once a zero-waitStart record seeds the selection no later candidate
displaces it.  Hence the processor finally woken has a nonzero
waitStart exactly when the first-examined candidate has a nonzero
waitStart, and a zero-waitStart processor other than the
first-examined one is never the one woken. -/
theorem wakeLRU_zero_seed_amended (rf : Nat → Regs) (mask c : Nat) (L : List Nat)
    (hL : wakeup_cpus_mask mask 0 = c :: L) :
    ((rf c).waittod = 0 → wakeup_cpu_mask rf mask = some c) ∧
    (0 < (rf c).waittod →
      ∃ d, wakeup_cpu_mask rf mask = some d ∧ 0 < (rf d).waittod) ∧
    (∀ d, wakeup_cpu_mask rf mask = some d → (rf d).waittod = 0 → d = c) := by
  have hmask : mask ≠ 0 := by
    intro h; subst h; rw [wakeup_cpus_mask_eq] at hL; simp at hL
  have hzero : (rf c).waittod = 0 → wakeup_cpu_mask rf mask = some c := by
    intro hc0
    unfold wakeup_cpu_mask
    rw [if_neg hmask, wakeLoop_eq_foldl, hL, List.foldl_cons]
    have hseed : lru_select rf Option.none c = some c := rfl
    rw [hseed, foldl_select_zero rf L c hc0]
  refine ⟨hzero, ?_, ?_⟩
  · intro hc
    obtain ⟨d, h1, _, h3, _⟩ := wakeup_cpu_mask_char rf mask c L hL hc
    exact ⟨d, h1, h3⟩
  · intro d hd hd0
    by_cases hc : 0 < (rf c).waittod
    · obtain ⟨d', h1, _, h3, _⟩ := wakeup_cpu_mask_char rf mask c L hL hc
      rw [hd] at h1
      rw [Option.some.inj h1] at hd0
      omega
    · have hc0 : (rf c).waittod = 0 := by omega
      have hcc := hzero hc0
      rw [hd] at hcc
      exact Option.some.inj hcc

theorem wakeLRU_zero_seed_amended_witness :
    ((zeroSeedRegsB 0).waittod = 0 →
      wakeup_cpu_mask zeroSeedRegsB 3 = some 0) ∧
    (0 < (zeroSeedRegsB 0).waittod →
      ∃ d, wakeup_cpu_mask zeroSeedRegsB 3 = some d ∧
        0 < (zeroSeedRegsB d).waittod) ∧
    (∀ d, wakeup_cpu_mask zeroSeedRegsB 3 = some d →
      (zeroSeedRegsB d).waittod = 0 → d = 0) :=
  wakeLRU_zero_seed_amended zeroSeedRegsB 3 0 [1]
    (by simp [wakeup_cpus_mask_eq, wakeup_cpu])

/-- C10 counterexample: on mask 7 with waitStart values 0, 3, 3 and
equal accumulatedWaitTimes, processors 1 and 2 are valid candidates
tied on the minimal nonzero waitStart and on the maximal
accumulatedWaitTime, and the highest processor index among them is 2;
yet the processor selected and woken is 0 — the zero-waitStart first
record seeds the selection and is never displaced, so the claim as
stated fails. -/
theorem wakeLRU_tie_zero_seed_counterexample :
    wakeup_cpu_mask zeroSeedRegsC 7 = some 0 ∧
    (zeroSeedRegsC 0).waittod = 0 ∧
    (zeroSeedRegsC 1).waittod = 3 ∧ (zeroSeedRegsC 2).waittod = 3 ∧
    (zeroSeedRegsC 1).waittime = (zeroSeedRegsC 2).waittime ∧
    (∀ k, Nat.testBit 7 k = true → 0 < (zeroSeedRegsC k).waittod →
      (zeroSeedRegsC 2).waittod ≤ (zeroSeedRegsC k).waittod ∧
      (zeroSeedRegsC k).waittime ≤ (zeroSeedRegsC 2).waittime ∧ k ≤ 2) ∧
    some 0 ≠ some 2 := by
  refine ⟨?_, by simp [zeroSeedRegsC, dfltRegs], by simp [zeroSeedRegsC, dfltRegs],
    by simp [zeroSeedRegsC, dfltRegs], by simp [zeroSeedRegsC, dfltRegs], ?_, by simp⟩
  · simp [wakeup_cpu_mask, wakeLoop_eq, lru_select, zeroSeedRegsC, dfltRegs]
  · intro k hk hv
    have hk3 : k < 3 := testBit_lt_of_lt hk (show (7:Nat) < 2 ^ 3 by norm_num)
    interval_cases k <;> simp_all [zeroSeedRegsC, dfltRegs]

/-- C10 (amended): provided the first-examined candidate (the lowest
set bit of the mask) has a nonzero waitStart, whenever a valid
candidate j has the minimal waitStart among all valid candidates, the
maximal accumulatedWaitTime among the candidates tied at that
waitStart, and the highest processor index among the candidates tied
on both, then j — the last of the tied candidates examined in
ascending bit order — is the one selected and woken, because the
comparison replaces the current selection on equal waitStart when the
accumulatedWaitTime is greater than or equal to the current
selection's.  When the first-examined candidate has waitStart 0, that
candidate is woken instead, regardless of any tie. -/
theorem wakeLRU_tie_highest_amended :
    (∀ (rf : Nat → Regs) (mask c j : Nat) (L : List Nat),
      wakeup_cpus_mask mask 0 = c :: L → 0 < (rf c).waittod →
      Nat.testBit mask j = true → 0 < (rf j).waittod →
      (∀ k, Nat.testBit mask k = true → 0 < (rf k).waittod →
        (rf j).waittod ≤ (rf k).waittod) →
      (∀ k, Nat.testBit mask k = true → (rf k).waittod = (rf j).waittod →
        (rf k).waittime ≤ (rf j).waittime) →
      (∀ k, Nat.testBit mask k = true → (rf k).waittod = (rf j).waittod →
        (rf k).waittime = (rf j).waittime → k ≤ j) →
      wakeup_cpu_mask rf mask = some j) ∧
    (∀ (rf : Nat → Regs) (mask c : Nat) (L : List Nat),
      wakeup_cpus_mask mask 0 = c :: L → (rf c).waittod = 0 →
      wakeup_cpu_mask rf mask = some c) := by
  constructor
  · intro rf mask c j L hL hc hj hjv hmin hmaxt hmaxi
    obtain ⟨d, hres, hdbit, hdv, hdL⟩ := wakeup_cpu_mask_char rf mask c L hL hc
    have h2 : lruPref rf d j := hdL j hj hjv
    have hwd : (rf j).waittod ≤ (rf d).waittod := hmin d hdbit hdv
    have hdj : d = j := by
      unfold lruPref at h2
      rcases h2 with hlt | ⟨heq, hrest⟩
      · omega
      · have htd : (rf d).waittime ≤ (rf j).waittime := hmaxt d hdbit heq
        rcases hrest with hlt2 | ⟨heqt, hji⟩
        · omega
        · have hdle : d ≤ j := hmaxi d hdbit heq heqt
          omega
    rwa [hdj] at hres
  · intro rf mask c L hL hc0
    have hmask : mask ≠ 0 := by
      intro h; subst h; rw [wakeup_cpus_mask_eq] at hL; simp at hL
    unfold wakeup_cpu_mask
    rw [if_neg hmask, wakeLoop_eq_foldl, hL, List.foldl_cons]
    have hseed : lru_select rf Option.none c = some c := rfl
    rw [hseed, foldl_select_zero rf L c hc0]

theorem wakeLRU_tie_highest_amended_witness :
    wakeup_cpu_mask exRegsD 15 = some 2 ∧
    wakeup_cpu_mask zeroSeedRegsC 7 = some 0 :=
  ⟨wakeLRU_tie_highest_amended.1 exRegsD 15 0 2 [1, 2, 3]
    (by simp [wakeup_cpus_mask_eq, wakeup_cpu])
    (by simp [exRegsD, dfltRegs])
    (by decide)
    (by simp [exRegsD, dfltRegs])
    (fun k hk hv => by
      have hk4 : k < 4 := testBit_lt_of_lt hk (show (15:Nat) < 2 ^ 4 by norm_num)
      interval_cases k <;> simp_all [exRegsD, dfltRegs])
    (fun k hk he => by
      have hk4 : k < 4 := testBit_lt_of_lt hk (show (15:Nat) < 2 ^ 4 by norm_num)
      interval_cases k <;> simp_all [exRegsD, dfltRegs])
    (fun k hk he ht => by
      have hk4 : k < 4 := testBit_lt_of_lt hk (show (15:Nat) < 2 ^ 4 by norm_num)
      interval_cases k <;> simp_all [exRegsD, dfltRegs]),
   wakeLRU_tie_highest_amended.2 zeroSeedRegsC 7 0 [1, 2]
    (by simp [wakeup_cpus_mask_eq, wakeup_cpu])
    (by simp [zeroSeedRegsC, dfltRegs])⟩

/-! Characterization of the synchronize_cpus scanning loop. -/

theorem sync_scan_eq (regsL : List Regs) (hicpu i mask n : Nat) :
    sync_scan regsL hicpu i mask n =
      if mask ≠ 0 ∧ i < hicpu then
        if Nat.testBit mask i then
          if (regsL.getD i dfltRegs).at_syncpoint then
            sync_scan regsL hicpu (i + 1) (mask ^^^ (1 <<< i)) n
          else
            sync_scan (regsL.set i (markInterrupt (regsL.getD i dfltRegs))) hicpu
              (i + 1) mask (n + 1)
        else sync_scan regsL hicpu (i + 1) mask n
      else (n, mask, regsL) := by
  rw [sync_scan]

theorem getD_set_ne (l : List Regs) (i j : Nat) (a : Regs) (h : i ≠ j) :
    (l.set i a).getD j dfltRegs = l.getD j dfltRegs := by
  simp [List.getD_eq_getElem?_getD, List.getElem?_set_ne h]

theorem getD_set_self (l : List Regs) (i : Nat) (a : Regs) (h : i < l.length) :
    (l.set i a).getD i dfltRegs = a := by
  simp [List.getD_eq_getElem?_getD, List.getElem?_set_self h]

theorem mem_range_one {s n m : Nat} : m ∈ List.range' s n ↔ s ≤ m ∧ m < s + n := by
  rw [List.mem_range']
  constructor
  · rintro ⟨k, hk, rfl⟩; omega
  · intro h; exact ⟨m - s, by omega, by omega⟩

theorem testBit_xor_pow {mask i j : Nat} :
    Nat.testBit (mask ^^^ (1 <<< i)) j =
      if j = i then !(Nat.testBit mask j) else Nat.testBit mask j := by
  rw [Nat.one_shiftLeft, Nat.testBit_xor]
  by_cases h : j = i
  · subst h; simp [Nat.testBit_two_pow_self]
  · simp [h, Nat.testBit_two_pow_of_ne (fun he => h he.symm)]

/-- Full characterization of the scanning loop of synchronize_cpus:
the processor table keeps its length; entries below the scan start and
entries outside the mask are untouched; a masked entry already at its
syncpoint is removed from the mask and left untouched; a masked entry
not at its syncpoint stays in the mask and gets the pending-interrupt
marking; and n counts exactly the masked entries not at their
syncpoint. -/
theorem sync_scan_char (regsL : List Regs) (hicpu i mask n : Nat) :
    hicpu ≤ regsL.length →
    ∀ nOut mOut rOut, sync_scan regsL hicpu i mask n = (nOut, mOut, rOut) →
      rOut.length = regsL.length ∧
      (∀ j, j < i → rOut.getD j dfltRegs = regsL.getD j dfltRegs ∧
        Nat.testBit mOut j = Nat.testBit mask j) ∧
      (∀ j, i ≤ j → Nat.testBit mask j = false →
        rOut.getD j dfltRegs = regsL.getD j dfltRegs ∧ Nat.testBit mOut j = false) ∧
      (∀ j, i ≤ j → j < hicpu → Nat.testBit mask j = true →
        ((regsL.getD j dfltRegs).at_syncpoint = true →
          Nat.testBit mOut j = false ∧ rOut.getD j dfltRegs = regsL.getD j dfltRegs) ∧
        ((regsL.getD j dfltRegs).at_syncpoint = false →
          Nat.testBit mOut j = true ∧
          rOut.getD j dfltRegs = markInterrupt (regsL.getD j dfltRegs))) ∧
      nOut = n + (List.range' i (hicpu - i)).countP
        (fun j => Nat.testBit mask j && !(regsL.getD j dfltRegs).at_syncpoint) := by
  induction regsL, hicpu, i, mask, n using sync_scan.induct with
  | case1 regsL hicpu i mask n hcond hbit hsync ih =>
    intro hlen nOut mOut rOut heq
    rw [sync_scan_eq, if_pos hcond, if_pos hbit, if_pos hsync] at heq
    obtain ⟨h1, h2, h3, h4, h5⟩ := ih hlen nOut mOut rOut heq
    refine ⟨h1, ?_, ?_, ?_, ?_⟩
    · intro j hj
      obtain ⟨ha, hb⟩ := h2 j (by omega)
      refine ⟨ha, ?_⟩
      rw [hb, testBit_xor_pow, if_neg (by omega)]
    · intro j hij hbj
      have hne : j ≠ i := by
        intro he; rw [he, hbit] at hbj; exact absurd hbj (by simp)
      have := h3 j (by omega) (by rw [testBit_xor_pow, if_neg hne]; exact hbj)
      exact this
    · intro j hij hjh hbj
      by_cases he : j = i
      · subst he
        obtain ⟨ha, hb⟩ := h2 j (by omega)
        constructor
        · intro _
          refine ⟨?_, ha⟩
          rw [hb, testBit_xor_pow, if_pos rfl, hbj]
          simp
        · intro hcontra
          rw [hsync] at hcontra
          exact absurd hcontra (by simp)
      · have := h4 j (by omega) hjh (by rw [testBit_xor_pow, if_neg he]; exact hbj)
        exact this
    · have hsplit : hicpu - i = (hicpu - (i + 1)) + 1 := by omega
      rw [hsplit, List.range'_succ, h5, List.countP_cons]
      have hpredi : (Nat.testBit mask i && !(regsL.getD i dfltRegs).at_syncpoint) = false := by
        rw [hbit, hsync]; simp
      rw [hpredi]
      have hcongr : (List.range' (i + 1) (hicpu - (i + 1))).countP
          (fun j => Nat.testBit (mask ^^^ (1 <<< i)) j &&
            !(regsL.getD j dfltRegs).at_syncpoint) =
          (List.range' (i + 1) (hicpu - (i + 1))).countP
          (fun j => Nat.testBit mask j && !(regsL.getD j dfltRegs).at_syncpoint) := by
        refine List.countP_congr ?_
        intro x hx
        have hxi : i + 1 ≤ x := (mem_range_one.mp hx).1
        rw [testBit_xor_pow, if_neg (by omega)]
      rw [hcongr]
      simp
  | case2 regsL hicpu i mask n hcond hbit hsync ih =>
    intro hlen nOut mOut rOut heq
    rw [sync_scan_eq, if_pos hcond, if_pos hbit, if_neg hsync] at heq
    have hsyncf : (regsL.getD i dfltRegs).at_syncpoint = false :=
      Bool.not_eq_true _ ▸ (by simpa using hsync)
    have hlen' : hicpu ≤ (regsL.set i (markInterrupt (regsL.getD i dfltRegs))).length := by
      rwa [List.length_set]
    obtain ⟨h1, h2, h3, h4, h5⟩ := ih hlen' nOut mOut rOut heq
    rw [List.length_set] at h1
    refine ⟨h1, ?_, ?_, ?_, ?_⟩
    · intro j hj
      obtain ⟨ha, hb⟩ := h2 j (by omega)
      rw [getD_set_ne _ _ _ _ (by omega)] at ha
      exact ⟨ha, hb⟩
    · intro j hij hbj
      have hne : j ≠ i := by
        intro he; rw [he, hbit] at hbj; exact absurd hbj (by simp)
      obtain ⟨ha, hb⟩ := h3 j (by omega) hbj
      rw [getD_set_ne _ _ _ _ (fun he => hne he.symm)] at ha
      exact ⟨ha, hb⟩
    · intro j hij hjh hbj
      by_cases he : j = i
      · subst he
        obtain ⟨ha, hb⟩ := h2 j (by omega)
        rw [getD_set_self _ _ _ (by omega)] at ha
        constructor
        · intro hcontra
          rw [hsyncf] at hcontra
          exact absurd hcontra (by simp)
        · intro _
          exact ⟨by rw [hb, hbj], ha⟩
      · have hmem := h4 j (by omega) hjh hbj
        rw [getD_set_ne _ _ _ _ (fun hx => he hx.symm)] at hmem
        exact hmem
    · have hsplit : hicpu - i = (hicpu - (i + 1)) + 1 := by omega
      have hpredi : (Nat.testBit mask i && !(regsL.getD i dfltRegs).at_syncpoint) = true := by
        rw [hbit, hsyncf]; simp
      have hcongr : (List.range' (i + 1) (hicpu - (i + 1))).countP
          (fun j => Nat.testBit mask j &&
            !((regsL.set i (markInterrupt (regsL.getD i dfltRegs))).getD j
              dfltRegs).at_syncpoint) =
          (List.range' (i + 1) (hicpu - (i + 1))).countP
          (fun j => Nat.testBit mask j && !(regsL.getD j dfltRegs).at_syncpoint) := by
        refine List.countP_congr ?_
        intro x hx
        have hxi : i + 1 ≤ x := (mem_range_one.mp hx).1
        rw [getD_set_ne _ _ _ _ (by omega)]
      rw [hsplit, List.range'_succ, h5, hcongr, List.countP_cons, hpredi]
      have hone : (if (true = true) then (1 : Nat) else 0) = 1 := rfl
      rw [hone]
      omega
  | case3 regsL hicpu i mask n hcond hbit ih =>
    intro hlen nOut mOut rOut heq
    rw [sync_scan_eq, if_pos hcond, if_neg hbit] at heq
    have hbitf : Nat.testBit mask i = false := by simpa using hbit
    obtain ⟨h1, h2, h3, h4, h5⟩ := ih hlen nOut mOut rOut heq
    refine ⟨h1, ?_, ?_, ?_, ?_⟩
    · intro j hj
      exact h2 j (by omega)
    · intro j hij hbj
      by_cases he : j = i
      · subst he
        obtain ⟨ha, hb⟩ := h2 j (by omega)
        exact ⟨ha, by rw [hb, hbj]⟩
      · exact h3 j (by omega) hbj
    · intro j hij hjh hbj
      have hne : j ≠ i := by
        intro he; rw [he, hbitf] at hbj; exact absurd hbj (by simp)
      exact h4 j (by omega) hjh hbj
    · have hsplit : hicpu - i = (hicpu - (i + 1)) + 1 := by omega
      rw [hsplit, List.range'_succ, List.countP_cons, h5]
      have hpredi : (Nat.testBit mask i && !(regsL.getD i dfltRegs).at_syncpoint) = false := by
        rw [hbitf]; simp
      rw [hpredi]
      simp
  | case4 regsL hicpu i mask n hcond =>
    intro _ nOut mOut rOut heq
    rw [sync_scan_eq, if_neg hcond] at heq
    injection heq with ha hrest
    injection hrest with hb hc
    subst ha; subst hb; subst hc
    refine ⟨rfl, fun j _ => ⟨rfl, rfl⟩, fun j _ hbj => ⟨rfl, hbj⟩, ?_, ?_⟩
    · intro j hij hjh hbj
      rcases Decidable.not_and_iff_or_not.mp hcond with hm | hi
      · rw [Decidable.not_not.mp hm] at hbj
        rw [Nat.zero_testBit] at hbj
        exact absurd hbj (by simp)
      · omega
    · rcases Decidable.not_and_iff_or_not.mp hcond with hm | hi
      · have hm0 : mask = 0 := Decidable.not_not.mp hm
        subst hm0
        have : (List.range' i (hicpu - i)).countP
            (fun j => Nat.testBit 0 j && !(regsL.getD j dfltRegs).at_syncpoint) = 0 := by
          rw [List.countP_eq_zero]
          intro a _
          rw [Nat.zero_testBit]
          simp
        omega
      · have : hicpu - i = 0 := by omega
        rw [this]
        simp

/-- C2: synchronize_cpus computes its candidate set as
activeMask & ~blockedMask & ~self.bit (started_mask with the waiting
processors and the caller's own bit removed), and for each candidate
processor: one already at a safe stop point is removed from the
candidate mask with no action on its record, while any other candidate
keeps its mask bit, gets the pending-interrupt condition marked on it
(and on its nested guest processor when present) and is counted as
outstanding. -/
theorem synchronize_cpus_candidates (s : SysBlk) (cpu : Nat)
    (hbound : ∀ j, Nat.testBit (syncCandidates s cpu) j = true → j < s.regs.length) :
    ∀ nOut mOut rOut,
      sync_scan s.regs s.regs.length 0 (syncCandidates s cpu) 0 = (nOut, mOut, rOut) →
      (∀ j, Nat.testBit (syncCandidates s cpu) j =
        (Nat.testBit s.started_mask j && !Nat.testBit s.waiting_mask j &&
         !(decide (j = cpu)))) ∧
      (synchronize_cpus s cpu).1.regs = rOut ∧
      (∀ j, Nat.testBit (syncCandidates s cpu) j = true →
        ((s.regs.getD j dfltRegs).at_syncpoint = true →
          Nat.testBit mOut j = false ∧
          rOut.getD j dfltRegs = s.regs.getD j dfltRegs) ∧
        ((s.regs.getD j dfltRegs).at_syncpoint = false →
          Nat.testBit mOut j = true ∧
          rOut.getD j dfltRegs = markInterrupt (s.regs.getD j dfltRegs) ∧
          (rOut.getD j dfltRegs).ic_interrupt = true ∧
          ((s.regs.getD j dfltRegs).sie_mode = true →
            (rOut.getD j dfltRegs).guest_ic_interrupt = true))) ∧
      (∀ j, Nat.testBit (syncCandidates s cpu) j = false →
        rOut.getD j dfltRegs = s.regs.getD j dfltRegs) ∧
      nOut = (List.range' 0 s.regs.length).countP
        (fun j => Nat.testBit (syncCandidates s cpu) j &&
          !(s.regs.getD j dfltRegs).at_syncpoint) := by
  intro nOut mOut rOut heq
  obtain ⟨h1, h2, h3, h4, h5⟩ :=
    sync_scan_char s.regs s.regs.length 0 (syncCandidates s cpu) 0 le_rfl nOut mOut rOut heq
  refine ⟨?_, ?_, ?_, ?_, ?_⟩
  · intro j
    simp only [syncCandidates, Nat.testBit_ldiff, Nat.testBit_lor, Nat.one_shiftLeft,
      Nat.testBit_two_pow]
    cases hs : Nat.testBit s.started_mask j <;>
      cases hw : Nat.testBit s.waiting_mask j <;> simp [eq_comm]
  · show (synchronize_cpus s cpu).1.regs = rOut
    simp only [synchronize_cpus, heq]
    by_cases hb : nOut ≠ 0 ∧ mOut ≠ 0
    · rw [if_pos hb]
    · rw [if_neg hb]
  · intro j hj
    have hcand := h4 j (Nat.zero_le j) (hbound j hj) hj
    refine ⟨hcand.1, ?_⟩
    intro hns
    obtain ⟨ha, hb⟩ := hcand.2 hns
    refine ⟨ha, hb, ?_, ?_⟩
    · rw [hb]; simp [markInterrupt]
    · intro hsie
      rw [hb]
      show (if (s.regs.getD j dfltRegs).sie_mode then true
            else (s.regs.getD j dfltRegs).guest_ic_interrupt) = true
      rw [hsie]
      simp
  · intro j hj
    exact (h3 j (Nat.zero_le j) hj).1
  · simpa using h5

/-- A processor record already at its syncpoint. -/
def exRa : Regs := { dfltRegs with at_syncpoint := true }

/-- A processor record not at its syncpoint, carrying a nested guest
processor. -/
def exRb : Regs := { dfltRegs with sie_mode := true }

/-- Two-processor system: processors 0 and 1 started, none waiting;
processor 1 is busy (not at its syncpoint) and runs a nested guest. -/
def exSys : SysBlk :=
  { started_mask := 3, waiting_mask := 0, sync_mask := 0, syncing := false,
    intowner := Owner.cpu 0, regs := [exRa, exRb] }

/-- Two-processor system in which the non-caller processor is already
at its syncpoint. -/
def exSysQ : SysBlk :=
  { started_mask := 3, waiting_mask := 0, sync_mask := 0, syncing := false,
    intowner := Owner.cpu 0, regs := [exRa, exRa] }

theorem exSys_candidates : syncCandidates exSys 0 = 2 := by
  simp [syncCandidates, exSys, Nat.ldiff, Nat.bitwise]

theorem exSysQ_candidates : syncCandidates exSysQ 0 = 2 := by
  simp [syncCandidates, exSysQ, Nat.ldiff, Nat.bitwise]

theorem synchronize_cpus_candidates_witness :
    (∀ j, Nat.testBit (syncCandidates exSys 0) j =
      (Nat.testBit exSys.started_mask j && !Nat.testBit exSys.waiting_mask j &&
       !(decide (j = 0)))) ∧
    (synchronize_cpus exSys 0).1.regs = [exRa, markInterrupt exRb] ∧
    (∀ j, Nat.testBit (syncCandidates exSys 0) j = true →
      ((exSys.regs.getD j dfltRegs).at_syncpoint = true →
        Nat.testBit 2 j = false ∧
        ([exRa, markInterrupt exRb] : List Regs).getD j dfltRegs =
          exSys.regs.getD j dfltRegs) ∧
      ((exSys.regs.getD j dfltRegs).at_syncpoint = false →
        Nat.testBit 2 j = true ∧
        ([exRa, markInterrupt exRb] : List Regs).getD j dfltRegs =
          markInterrupt (exSys.regs.getD j dfltRegs) ∧
        (([exRa, markInterrupt exRb] : List Regs).getD j dfltRegs).ic_interrupt = true ∧
        ((exSys.regs.getD j dfltRegs).sie_mode = true →
          (([exRa, markInterrupt exRb] : List Regs).getD j
            dfltRegs).guest_ic_interrupt = true))) ∧
    (∀ j, Nat.testBit (syncCandidates exSys 0) j = false →
      ([exRa, markInterrupt exRb] : List Regs).getD j dfltRegs =
        exSys.regs.getD j dfltRegs) ∧
    1 = (List.range' 0 exSys.regs.length).countP
      (fun j => Nat.testBit (syncCandidates exSys 0) j &&
        !(exSys.regs.getD j dfltRegs).at_syncpoint) :=
  synchronize_cpus_candidates exSys 0
    (fun j hj => by
      rw [exSys_candidates] at hj
      have hj2 := testBit_lt_of_lt hj (show (2:Nat) < 2 ^ 2 by norm_num)
      simpa [exSys] using hj2)
    1 2 [exRa, markInterrupt exRb]
    (by rw [exSys_candidates]
        simp [sync_scan_eq, exSys, exRa, exRb, dfltRegs, markInterrupt]
        decide)

/-- C6: if every candidate of synchronize_cpus is already at a safe
stop point, the outstanding count is zero and synchronize_cpus returns
immediately without blocking (it never stores the barrier state or
waits), leaving barrierActive (syncing), barrierPendingMask
(sync_mask) and lockOwner (intowner) unchanged. -/
theorem synchronize_cpus_all_quiesced (s : SysBlk) (cpu : Nat)
    (hall : ∀ j, Nat.testBit (syncCandidates s cpu) j = true →
      j < s.regs.length ∧ (s.regs.getD j dfltRegs).at_syncpoint = true) :
    (synchronize_cpus s cpu).2 = false ∧
    (synchronize_cpus s cpu).1.syncing = s.syncing ∧
    (synchronize_cpus s cpu).1.sync_mask = s.sync_mask ∧
    (synchronize_cpus s cpu).1.intowner = s.intowner := by
  rcases heq : sync_scan s.regs s.regs.length 0 (syncCandidates s cpu) 0 with
    ⟨nOut, mOut, rOut⟩
  obtain ⟨h1, h2, h3, h4, h5⟩ :=
    sync_scan_char s.regs s.regs.length 0 (syncCandidates s cpu) 0 le_rfl nOut mOut rOut heq
  have hn0 : nOut = 0 := by
    rw [h5]
    have hz : (List.range' 0 (s.regs.length - 0)).countP
        (fun j => Nat.testBit (syncCandidates s cpu) j &&
          !(s.regs.getD j dfltRegs).at_syncpoint) = 0 := by
      rw [List.countP_eq_zero]
      intro a _
      by_cases hc : Nat.testBit (syncCandidates s cpu) a = true
      · rw [hc, (hall a hc).2]; simp
      · rw [Bool.not_eq_true] at hc; rw [hc]; simp
    omega
  have hcond : ¬(nOut ≠ 0 ∧ mOut ≠ 0) := fun hcontra => hcontra.1 hn0
  simp only [synchronize_cpus, heq]
  rw [if_neg hcond]
  exact ⟨rfl, rfl, rfl, rfl⟩

theorem synchronize_cpus_all_quiesced_witness :
    (synchronize_cpus exSysQ 0).2 = false ∧
    (synchronize_cpus exSysQ 0).1.syncing = exSysQ.syncing ∧
    (synchronize_cpus exSysQ 0).1.sync_mask = exSysQ.sync_mask ∧
    (synchronize_cpus exSysQ 0).1.intowner = exSysQ.intowner :=
  synchronize_cpus_all_quiesced exSysQ 0
    (fun j hj => by
      rw [exSysQ_candidates] at hj
      have hj2 := testBit_lt_of_lt hj (show (2:Nat) < 2 ^ 2 by norm_num)
      interval_cases j
      · exact absurd hj (by decide)
      · exact ⟨by simp [exSysQ], by simp [exSysQ, exRa, dfltRegs]⟩)

/-! Analysis of Obtain_Interrupt_Lock. -/

/-- Shape of the event trace produced by the while (sysblk.syncing)
loop of Obtain_Interrupt_Lock for processor c: each iteration removes
the processor's own bit from sync_mask (sync_mask &= ~cpubit), signals
the barrier's "satisfied" condition exactly when the removal leaves
the mask empty, and then waits on the "resolved" broadcast
condition. -/
inductive BarrierLoopTrace (c : Nat) : List Ev → Prop where
  | nil : BarrierLoopTrace c []
  | stepPending (mask : Nat) (rest : List Ev)
      (hne : Nat.ldiff mask (1 <<< c) ≠ 0)
      (h : BarrierLoopTrace c rest) :
      BarrierLoopTrace c
        (Ev.removeBit mask (Nat.ldiff mask (1 <<< c)) :: Ev.waitResolved :: rest)
  | stepEmpty (mask : Nat) (rest : List Ev)
      (he : Nat.ldiff mask (1 <<< c) = 0)
      (h : BarrierLoopTrace c rest) :
      BarrierLoopTrace c
        (Ev.removeBit mask (Nat.ldiff mask (1 <<< c)) :: Ev.signalSatisfied ::
          Ev.waitResolved :: rest)

theorem obtain_wait_loop_shape (c : Nat) (env : List (Bool × Nat)) :
    ∀ (sy : Bool) (mask : Nat) (tr : List Ev),
      obtain_wait_loop c sy mask env = some tr →
      BarrierLoopTrace c tr ∧ (sy = false → tr = []) := by
  induction env with
  | nil =>
    intro sy mask tr h
    cases sy with
    | false =>
      simp only [obtain_wait_loop] at h
      exact ⟨(Option.some.inj h) ▸ BarrierLoopTrace.nil,
        fun _ => (Option.some.inj h).symm⟩
    | true => simp [obtain_wait_loop] at h
  | cons e env ih =>
    intro sy mask tr h
    cases sy with
    | false =>
      simp only [obtain_wait_loop] at h
      exact ⟨(Option.some.inj h) ▸ BarrierLoopTrace.nil,
        fun _ => (Option.some.inj h).symm⟩
    | true =>
      obtain ⟨sy', m'⟩ := e
      simp only [obtain_wait_loop, Option.map_eq_some'] at h
      obtain ⟨tr', htr', rfl⟩ := h
      obtain ⟨hshape, _⟩ := ih sy' m' tr' htr'
      refine ⟨?_, by simp⟩
      by_cases hm : Nat.ldiff mask (1 <<< c) = 0
      · rw [if_pos hm]
        rw [List.singleton_append]
        exact BarrierLoopTrace.stepEmpty mask tr' hm hshape
      · rw [if_neg hm]
        rw [List.nil_append]
        exact BarrierLoopTrace.stepPending mask tr' hm hshape

/-- C1: Obtain_Interrupt_Lock by a processor participates in an
in-progress barrier: the first event sets the processor's lockWaitFlag
(intwait = 1), only then comes the blocking obtain_lock; afterwards,
for as long as syncing is observed true, every iteration removes the
processor's own bit from sync_mask, signals the "satisfied" condition
exactly when that removal empties the mask, and waits on the
"resolved" condition; once syncing is observed false the execution
ends by clearing the lockWaitFlag and setting the owner to the
processor's id.  When syncing was already false on entry the barrier
body is empty. -/
theorem obtain_lock_barrier_participation (c : Nat) (sy : Bool) (mask : Nat)
    (env : List (Bool × Nat)) (tr : List Ev)
    (h : Obtain_Interrupt_Lock (some c) sy mask env = some tr) :
    ∃ body, BarrierLoopTrace c body ∧
      tr = Ev.setWaitFlag :: Ev.acquireLock ::
        (body ++ [Ev.clearWaitFlag, Ev.setOwnerCpu c]) ∧
      (sy = false → body = []) := by
  simp only [Obtain_Interrupt_Lock, Option.map_eq_some'] at h
  obtain ⟨tr', htr', rfl⟩ := h
  obtain ⟨hshape, hfalse⟩ := obtain_wait_loop_shape c env sy mask tr' htr'
  exact ⟨tr', hshape, rfl, hfalse⟩

theorem obtain_lock_barrier_participation_witness :
    ∃ body, BarrierLoopTrace 0 body ∧
      [Ev.setWaitFlag, Ev.acquireLock, Ev.removeBit 3 2, Ev.waitResolved,
       Ev.clearWaitFlag, Ev.setOwnerCpu 0] =
        Ev.setWaitFlag :: Ev.acquireLock ::
          (body ++ [Ev.clearWaitFlag, Ev.setOwnerCpu 0]) ∧
      (true = false → body = []) :=
  obtain_lock_barrier_participation 0 true 3 [(false, 0)]
    [Ev.setWaitFlag, Ev.acquireLock, Ev.removeBit 3 2, Ev.waitResolved,
     Ev.clearWaitFlag, Ev.setOwnerCpu 0]
    (by simp [Obtain_Interrupt_Lock, obtain_wait_loop, Nat.ldiff, Nat.bitwise])

/-- C3: the barrier-mask invariant — sync_mask non-empty only while
syncing, always empty when not syncing — holds in the initial state
and is preserved by every observable transition of the core
(synchronize_cpus entering and leaving its wait, both kinds of
acquirer, release, and the wakeup operations). -/
theorem maskInv_preserved :
    maskInv ⟨false, 0, Owner.noOwner⟩ ∧
    ∀ s s' : BSt, maskInv s → CoreStep s s' → maskInv s' := by
  refine ⟨by decide, ?_⟩
  intro s s' hinv hstep
  cases hstep with
  | barrierStart mask h =>
    exact ⟨fun _ => rfl, fun hx => Bool.noConfusion hx⟩
  | barrierFinish c hs hm =>
    exact ⟨fun hne => absurd hm hne, fun _ => hm⟩
  | acquireDrain c hs =>
    exact ⟨fun _ => rfl, fun hx => Bool.noConfusion hx⟩
  | acquireCpu c hs => exact hinv
  | acquireOther => exact hinv
  | releaseLock => exact hinv
  | wakeup => exact hinv
  | barrierNoWait => exact hinv

theorem maskInv_preserved_witness : maskInv ⟨true, 3, Owner.noOwner⟩ :=
  maskInv_preserved.2 ⟨false, 0, Owner.noOwner⟩ ⟨true, 3, Owner.noOwner⟩
    (by decide) (CoreStep.barrierStart ⟨false, 0, Owner.noOwner⟩ 3 (by decide))

/-! Release_Interrupt_Lock. -/

/-- A system state in which nobody holds the interrupt lock. -/
def exSysFree : SysBlk :=
  { started_mask := 3, waiting_mask := 0, sync_mask := 0, syncing := false,
    intowner := Owner.noOwner, regs := [] }

/-- C7 counterexample: in a state where nobody holds the lock,
Release_Interrupt_Lock called by a non-holder proceeds normally — it
returns the state with lockOwner set to NONE, with no error outcome
and no check, while the checked release written from the spec's words
flags the very same call as a contract violation.  The code therefore
silently tolerates a release by a non-holder rather than flagging
it. -/
theorem release_unheld_not_flagged :
    Release_Interrupt_Lock exSysFree Option.none =
      { exSysFree with intowner := Owner.noOwner } ∧
    exSysFree.intowner = Owner.noOwner ∧
    release_with_check exSysFree Option.none = Except.error () := by
  refine ⟨rfl, rfl, ?_⟩
  simp [release_with_check, exSysFree]

/-- C7 (amended): Release_Interrupt_Lock performs no precondition
check at all: whatever the state and whoever the requester (the
requester argument is ignored, mirroring UNREFERENCED(regs)), it sets
lockOwner to NONE, releases the underlying mutual exclusion, and
touches nothing else; a release by a thread that does not hold the
lock is silently tolerated at this layer, not flagged. -/
theorem release_no_check (s : SysBlk) (r r' : Option Nat) :
    Release_Interrupt_Lock s r = { s with intowner := Owner.noOwner } ∧
    Release_Interrupt_Lock s r = Release_Interrupt_Lock s r' ∧
    (Release_Interrupt_Lock s r).started_mask = s.started_mask ∧
    (Release_Interrupt_Lock s r).waiting_mask = s.waiting_mask ∧
    (Release_Interrupt_Lock s r).sync_mask = s.sync_mask ∧
    (Release_Interrupt_Lock s r).syncing = s.syncing ∧
    (Release_Interrupt_Lock s r).regs = s.regs :=
  ⟨rfl, rfl, rfl, rfl, rfl, rfl, rfl⟩

end Hinlines
